import Mathlib

/-!
Verification of the Game of Life engine in `src/game_of_life.rs`
(`Cell`, `Universe`: `get_index`, `live_neighbor_count`,
`clear_changed_cells`, `update`, `new`).

The Rust code is shallowly embedded: `Vec<Cell>` becomes `List Cell`,
`u32` indices become `Nat`, indexing `self.cells[idx]` becomes
`List.getD _ idx Cell.Dead`, and the in-place loops of `update` and `new`
become left folds over `List.range`.  Checked variants (`…Chk`) return
`Option` and fail exactly where the Rust indexing would go out of bounds;
they certify totality of the corresponding source functions.
Definitions whose name starts with `spec` transcribe the specification
document rather than the source, for refinement comparisons.
-/

/-- `Cell` from the source: a two-valued cell state. -/
inductive Cell where
  | Dead : Cell
  | Alive : Cell
deriving DecidableEq, Repr

/-- The numeric value of a cell (`Cell as u8` in the source: Dead = 0, Alive = 1). -/
def Cell.val : Cell → Nat
  | Cell.Dead => 0
  | Cell.Alive => 1

/-- `Universe` from the source: dimensions, the row-major cell vector, and the
change record of `(column, row, state)` triples. -/
structure Universe where
  width : Nat
  height : Nat
  cells : List Cell
  changed_cells : List (Nat × Nat × Cell)
deriving DecidableEq, Repr

namespace Universe

/-- `Universe::get_index`: row-major linear index `row * width + column`. -/
def get_index (u : Universe) (row column : Nat) : Nat :=
  row * u.width + column

/-- `Universe::live_neighbor_count`: iterate `delta_row` over
`[height-1, 0, 1]` and `delta_col` over `[width-1, 0, 1]`, skip the pair
whose two deltas are both `0`, and sum the values of the cells at the
wrapped positions `((row+delta_row) % height, (column+delta_col) % width)`. -/
def live_neighbor_count (u : Universe) (row column : Nat) : Nat :=
  List.foldl (fun count delta_row =>
    List.foldl (fun count delta_col =>
      if delta_row = 0 ∧ delta_col = 0 then count
      else
        let neighbor_row := (row + delta_row) % u.height
        let neighbor_col := (column + delta_col) % u.width
        let idx := u.get_index neighbor_row neighbor_col
        count + (u.cells.getD idx Cell.Dead).val)
      count [u.width - 1, 0, 1])
    0 [u.height - 1, 0, 1]

/-- `Universe::clear_changed_cells`: empty the change record. -/
def clear_changed_cells (u : Universe) : Universe :=
  { u with changed_cells := [] }

end Universe

/-- The match arms of `Universe::update`, as a function of the current cell and
its live-neighbor count: the first component is the cell written to `next`,
the second is the state pushed onto `changed_cells` (`none` when the arm
pushes nothing).  The arms appear in source order: live with fewer than two
neighbors dies, live with two or three survives (and is pushed!), live with
more than three dies, dead with exactly three is born, anything else is kept
unchanged with no push. -/
def nextCellRecord (cell : Cell) (live_neighbors : Nat) : Cell × Option Cell :=
  if cell = Cell.Alive ∧ live_neighbors < 2 then
    (Cell.Dead, some Cell.Dead)
  else if cell = Cell.Alive ∧ (live_neighbors = 2 ∨ live_neighbors = 3) then
    (Cell.Alive, some Cell.Alive)
  else if cell = Cell.Alive ∧ live_neighbors > 3 then
    (Cell.Dead, some Cell.Dead)
  else if cell = Cell.Dead ∧ live_neighbors = 3 then
    (Cell.Alive, some Cell.Alive)
  else
    (cell, none)

namespace Universe

/-- One iteration of the inner (`col`) loop of `Universe::update`: the
accumulator carries the `next` buffer and the change record.  Reads
`self.cells[idx]`, computes the live-neighbor count, writes `next[idx]`,
and appends the pushed entry, if any, as `(col, row, state)`. -/
def updateCellStep (u : Universe) (row : Nat)
    (acc : List Cell × List (Nat × Nat × Cell)) (col : Nat) :
    List Cell × List (Nat × Nat × Cell) :=
  let idx := u.get_index row col
  let cell := u.cells.getD idx Cell.Dead
  let live_neighbors := u.live_neighbor_count row col
  let r := nextCellRecord cell live_neighbors
  (acc.1.set idx r.1, acc.2 ++ (r.2.map (fun s => (col, row, s))).toList)

/-- One iteration of the outer (`row`) loop of `Universe::update`. -/
def updateRowStep (u : Universe)
    (acc : List Cell × List (Nat × Nat × Cell)) (row : Nat) :
    List Cell × List (Nat × Nat × Cell) :=
  List.foldl (u.updateCellStep row) acc (List.range u.width)

/-- `Universe::update`: double-buffered synchronous step.  `next` starts as a
clone of `cells`; the loops overwrite every in-range index and push change
entries onto the existing `changed_cells` (the record is NOT cleared first);
finally `cells` is replaced by `next`. -/
def update (u : Universe) : Universe :=
  let result := List.foldl u.updateRowStep (u.cells, u.changed_cells)
    (List.range u.height)
  { u with cells := result.1, changed_cells := result.2 }

/-- The seeding rule of `Universe::new`: the cell at linear index `i` starts
alive when `i % 2 == 0 || i % 7 == 0`. -/
def seedCell (i : Nat) : Cell :=
  if i % 2 = 0 ∨ i % 7 = 0 then Cell.Alive else Cell.Dead

/-- `Universe::new`: seed `width*height` cells by linear index, then walk the
grid in row-major order pushing `(col, row, Alive)` for every alive cell to
form the initial change record. -/
def new (width height : Nat) : Universe :=
  let cells := (List.range (width * height)).map seedCell
  let changed_cells := List.foldl (fun record row =>
    List.foldl (fun record col =>
      let idx := row * width + col
      let cell := cells.getD idx Cell.Dead
      if cell = Cell.Alive then record ++ [(col, row, Cell.Alive)] else record)
      record (List.range width))
    [] (List.range height)
  { width := width, height := height, cells := cells,
    changed_cells := changed_cells }

end Universe

/-- `n` iterated calls of `step()` (`Universe::update`). -/
def stepN : Nat → Universe → Universe
  | 0, u => u
  | n + 1, u => stepN n u.update

/-- The states reachable from `Universe::new width height` by any sequence of
`update` and `clear_changed_cells` calls. -/
inductive Reachable (width height : Nat) : Universe → Prop where
  | base : Reachable width height (Universe.new width height)
  | step (u : Universe) : Reachable width height u →
      Reachable width height u.update
  | clear (u : Universe) : Reachable width height u →
      Reachable width height u.clear_changed_cells

/-! ### Specification-side definitions (transcribed from the spec document) -/

/-- The rule table of the spec, section 4.1 `step()`: live with fewer than 2
neighbors dies; live with 2 or 3 survives; live with more than 3 dies; dead
with exactly 3 becomes alive; every other cell is unchanged. -/
def lifeRule (cell : Cell) (live_neighbors : Nat) : Cell :=
  if cell = Cell.Alive ∧ live_neighbors < 2 then Cell.Dead
  else if cell = Cell.Alive ∧ (live_neighbors = 2 ∨ live_neighbors = 3) then Cell.Alive
  else if cell = Cell.Alive ∧ live_neighbors > 3 then Cell.Dead
  else if cell = Cell.Dead ∧ live_neighbors = 3 then Cell.Alive
  else cell

/-- The 8 neighbor offsets of the spec: row and column deltas in `{-1, 0, 1}`
excluding `(0, 0)`. -/
def specOffsets : List (Int × Int) :=
  [(-1, -1), (-1, 0), (-1, 1), (0, -1), (0, 1), (1, -1), (1, 0), (1, 1)]

/-- Spec-side neighbor count: for each of the 8 offsets, wrap row and column
independently modulo height and width (toroidal topology) and sum 1 for each
alive neighbor. -/
def specNeighborCount (u : Universe) (row column : Nat) : Nat :=
  List.foldl (fun count d =>
    let neighbor_row := (((row : Int) + d.1) % (u.height : Int)).toNat
    let neighbor_col := (((column : Int) + d.2) % (u.width : Int)).toNat
    count + (u.cells.getD (neighbor_row * u.width + neighbor_col) Cell.Dead).val)
    0 specOffsets

/-- The entries `update` appends to the change record, characterized over
linear indices in ascending (row-major) order: one entry for every cell that
is currently alive (carrying its next state) and for every dead cell with
exactly three live neighbors (carrying `Alive`); dead cells that stay dead
contribute nothing. -/
def specDelta (u : Universe) : List (Nat × Nat × Cell) :=
  (List.range (u.height * u.width)).filterMap (fun i =>
    let row := i / u.width
    let col := i % u.width
    let cell := u.cells.getD i Cell.Dead
    let n := u.live_neighbor_count row col
    if cell = Cell.Alive then some (col, row, lifeRule cell n)
    else if n = 3 then some (col, row, Cell.Alive)
    else none)

/-- The initial change record the spec requires of `new`: every cell seeded
alive, listed as `(column, row, Alive)` in row-major (ascending linear index)
order. -/
def specInitRecord (width height : Nat) : List (Nat × Nat × Cell) :=
  (List.range (height * width)).filterMap (fun i =>
    if Universe.seedCell i = Cell.Alive then some (i % width, i / width, Cell.Alive)
    else none)

/-! ### Checked (Option-valued) variants certifying in-bounds indexing -/

/-- Bounds-checked list write: `none` exactly when the Rust `next[idx] = v`
would index out of bounds. -/
def setChk (cs : List Cell) (i : Nat) (v : Cell) : Option (List Cell) :=
  if i < cs.length then some (cs.set i v) else none

namespace Universe

/-- `live_neighbor_count` with every `self.cells[idx]` read bounds-checked. -/
def live_neighbor_countChk (u : Universe) (row column : Nat) : Option Nat :=
  List.foldl (fun count delta_row =>
    List.foldl (fun count delta_col =>
      if delta_row = 0 ∧ delta_col = 0 then count
      else
        count.bind (fun n =>
          (u.cells.get? (u.get_index ((row + delta_row) % u.height)
              ((column + delta_col) % u.width))).map
            (fun cell => n + cell.val)))
      count [u.width - 1, 0, 1])
    (some 0) [u.height - 1, 0, 1]

/-- The inner loop body of `update` with every read and write bounds-checked. -/
def updateCellStepChk (u : Universe) (row : Nat)
    (acc : Option (List Cell × List (Nat × Nat × Cell))) (col : Nat) :
    Option (List Cell × List (Nat × Nat × Cell)) :=
  acc.bind (fun a =>
    let idx := u.get_index row col
    (u.cells.get? idx).bind (fun cell =>
      (u.live_neighbor_countChk row col).bind (fun live_neighbors =>
        let r := nextCellRecord cell live_neighbors
        (setChk a.1 idx r.1).map
          (fun next => (next, a.2 ++ (r.2.map (fun s => (col, row, s))).toList)))))

/-- The outer loop of `update`, bounds-checked. -/
def updateRowStepChk (u : Universe)
    (acc : Option (List Cell × List (Nat × Nat × Cell))) (row : Nat) :
    Option (List Cell × List (Nat × Nat × Cell)) :=
  List.foldl (u.updateCellStepChk row) acc (List.range u.width)

/-- `update` with every array access bounds-checked: returns `none` exactly
when some index computed during the step would be out of range. -/
def updateChk (u : Universe) : Option Universe :=
  (List.foldl u.updateRowStepChk (some (u.cells, u.changed_cells))
    (List.range u.height)).map
    (fun result => { u with cells := result.1, changed_cells := result.2 })

/-- `new` with the record-building read `cells[idx]` bounds-checked. -/
def newChk (width height : Nat) : Option Universe :=
  let cells := (List.range (width * height)).map seedCell
  (List.foldl (fun record row =>
    List.foldl (fun record col =>
      record.bind (fun rec0 =>
        (cells.get? (row * width + col)).map (fun cell =>
          if cell = Cell.Alive then rec0 ++ [(col, row, Cell.Alive)] else rec0)))
      record (List.range width))
    (some []) (List.range height)).map
    (fun changed_cells =>
      { width := width, height := height, cells := cells,
        changed_cells := changed_cells })

end Universe

/-! ### Derived forms of `update`, used to analyse the two fold components -/

namespace Universe

/-- The value `update` writes to `next` at position `(row, col)`. -/
def cellVal (u : Universe) (row col : Nat) : Cell :=
  (nextCellRecord (u.cells.getD (u.get_index row col) Cell.Dead)
    (u.live_neighbor_count row col)).1

/-- The `next` buffer of `update`, isolated from the change-record side. -/
def cellsFold (u : Universe) : List Cell :=
  (List.range u.height).foldl (fun cs row =>
    (List.range u.width).foldl (fun cs col =>
      cs.set (u.get_index row col) (u.cellVal row col)) cs)
    u.cells

/-- The change entries `update` pushes at position `(row, col)`: `[]` or a
singleton `(col, row, state)`. -/
def pushList (u : Universe) (row col : Nat) : List (Nat × Nat × Cell) :=
  (((nextCellRecord (u.cells.getD (u.get_index row col) Cell.Dead)
      (u.live_neighbor_count row col)).2).map (fun s => (col, row, s))).toList

/-- All entries `update` appends to the change record, in loop order. -/
def updateDelta (u : Universe) : List (Nat × Nat × Cell) :=
  (List.range u.height).flatMap (fun row =>
    (List.range u.width).flatMap (fun col => u.pushList row col))

end Universe

/-- Row-major enumeration of the grid positions, as `(row, col)` pairs. -/
def pairsRM (height width : Nat) : List (Nat × Nat) :=
  (List.range height).flatMap (fun row =>
    (List.range width).map (fun col => (row, col)))

/-! ### Concrete fixtures -/

/-- A 4×4 grid whose only live cells are the 2×2 block
`{(1,1),(1,2),(2,1),(2,2)}`, with an empty change record. -/
def uBlock : Universe :=
  { width := 4, height := 4,
    cells :=
      [Cell.Dead, Cell.Dead, Cell.Dead, Cell.Dead,
       Cell.Dead, Cell.Alive, Cell.Alive, Cell.Dead,
       Cell.Dead, Cell.Alive, Cell.Alive, Cell.Dead,
       Cell.Dead, Cell.Dead, Cell.Dead, Cell.Dead],
    changed_cells := [] }

/-- A 1×3 grid (height 1) with every cell alive. -/
def uRow3 : Universe :=
  { width := 3, height := 1,
    cells := [Cell.Alive, Cell.Alive, Cell.Alive],
    changed_cells := [] }

/-- The block grid again, but with a different pre-existing change record:
used to check that the record does not influence the cell evolution. -/
def uBlockDirty : Universe :=
  { width := 4, height := 4,
    cells := uBlock.cells,
    changed_cells := [(0, 0, Cell.Dead), (3, 3, Cell.Alive)] }

/-! ## Generic fold lemmas -/

/-- A left fold whose step acts independently on the two components of a pair,
appending to the second, splits into a fold and an accumulated `flatMap`. -/
theorem foldl_pair_split {α β γ : Type} (f : γ × List α → β → γ × List α)
    (g : γ → β → γ) (p : β → List α)
    (hf : ∀ a b, f a b = (g a.1 b, a.2 ++ p b)) :
    ∀ (l : List β) (a : γ × List α),
      l.foldl f a = (l.foldl g a.1, a.2 ++ l.flatMap p)
  | [], a => by simp
  | b :: l, a => by
    rw [List.foldl_cons, List.foldl_cons, foldl_pair_split f g p hf l _, hf]
    simp [List.flatMap_cons]

/-- A pure append-fold accumulates the `flatMap` of its pushes. -/
theorem foldl_append_eq {α β : Type} (p : β → List α) :
    ∀ (l : List β) (acc : List α),
      l.foldl (fun a b => a ++ p b) acc = acc ++ l.flatMap p
  | [], acc => by simp
  | b :: l, acc => by
    rw [List.foldl_cons, foldl_append_eq p l _]
    simp [List.flatMap_cons]

/-- Folding over a `flatMap` folds over each chunk in turn. -/
theorem foldl_flatMap_eq {α β γ : Type} (g : β → List γ) (f : α → γ → α) :
    ∀ (l : List β) (a : α),
      (l.flatMap g).foldl f a = l.foldl (fun a b => (g b).foldl f a) a
  | [], a => by simp
  | b :: l, a => by
    rw [List.flatMap_cons, List.foldl_append, List.foldl_cons,
      foldl_flatMap_eq g f l _]

/-- `flatMap` congruence on members. -/
theorem flatMap_congr_mem {α β : Type} (f g : α → List β) :
    ∀ (l : List α), (∀ a ∈ l, f a = g a) → l.flatMap f = l.flatMap g
  | [], _ => rfl
  | a :: l, h => by
    rw [List.flatMap_cons, List.flatMap_cons, h a (by simp),
      flatMap_congr_mem f g l (fun b hb => h b (by simp [hb]))]

/-- A fold of writes never changes the length of the buffer. -/
theorem foldl_set_length (ι : Nat × Nat → Nat) (v : Nat × Nat → Cell) :
    ∀ (ps : List (Nat × Nat)) (cs : List Cell),
      (ps.foldl (fun cs p => cs.set (ι p) (v p)) cs).length = cs.length
  | [], cs => rfl
  | p :: ps, cs => by
    rw [List.foldl_cons, foldl_set_length ι v ps _, List.length_set]

/-- A fold of writes at indices all different from `j` leaves position `j`
unchanged. -/
theorem foldl_set_getD_other (ι : Nat × Nat → Nat) (v : Nat × Nat → Cell)
    (j : Nat) :
    ∀ (ps : List (Nat × Nat)) (cs : List Cell), (∀ p ∈ ps, ι p ≠ j) →
      (ps.foldl (fun cs p => cs.set (ι p) (v p)) cs).getD j Cell.Dead =
        cs.getD j Cell.Dead
  | [], cs, _ => rfl
  | p :: ps, cs, h => by
    rw [List.foldl_cons,
      foldl_set_getD_other ι v j ps _ (fun q hq => h q (by simp [hq]))]
    rw [List.getD_eq_getElem?_getD, List.getD_eq_getElem?_getD,
      List.getElem?_set]
    simp [h p (by simp)]

/-- A fold of writes over a duplicate-free (w.r.t. the index map) list of
positions containing `q` ends with `v q` at index `ι q`. -/
theorem foldl_set_getD_mem (ι : Nat × Nat → Nat) (v : Nat × Nat → Cell)
    (q : Nat × Nat) :
    ∀ (ps : List (Nat × Nat)) (cs : List Cell),
      q ∈ ps → (∀ p ∈ ps, ι p = ι q → p = q) → ι q < cs.length →
      (ps.foldl (fun cs p => cs.set (ι p) (v p)) cs).getD (ι q) Cell.Dead = v q
  | [], _, hq, _, _ => absurd hq (List.not_mem_nil q)
  | p :: ps, cs, hq, hinj, hlt => by
    rw [List.foldl_cons]
    by_cases hmem : q ∈ ps
    · exact foldl_set_getD_mem ι v q ps _ hmem
        (fun r hr he => hinj r (by simp [hr]) he)
        (by rw [List.length_set]; exact hlt)
    · have hpq : p = q := by
        rcases List.mem_cons.mp hq with h | h
        · exact h.symm
        · exact absurd h hmem
      subst hpq
      have hother : ∀ r ∈ ps, ι r ≠ ι p := by
        intro r hr he
        exact hmem (hinj r (by simp [hr]) he ▸ hr)
      rw [foldl_set_getD_other ι v (ι p) ps _ hother]
      rw [List.getD_eq_getElem?_getD, List.getElem?_set]
      simp [hlt]

/-- An `Option`-valued fold that succeeds at every step, given an invariant
`P` on the accumulator, computes the plain fold. -/
theorem foldl_option_some {α β : Type} (P : α → Prop) (f : α → β → α)
    (g : Option α → β → Option α) :
    ∀ (l : List β), (∀ a b, P a → b ∈ l → g (some a) b = some (f a b)) →
      (∀ a b, P a → b ∈ l → P (f a b)) →
      ∀ a, P a → l.foldl g (some a) = some (l.foldl f a)
  | [], _, _, a, _ => rfl
  | b :: l, hfg, hP, a, ha => by
    rw [List.foldl_cons, List.foldl_cons, hfg a b ha (by simp)]
    exact foldl_option_some P f g l
      (fun x y hx hy => hfg x y hx (by simp [hy]))
      (fun x y hx hy => hP x y hx (by simp [hy]))
      (f a b) (hP a b ha (by simp))

/-- A fold adding one value of at most 1 per list element grows by at most the
list length. -/
theorem foldl_val_le {β : Type} (g : β → Nat) (hg : ∀ b, g b ≤ 1) :
    ∀ (l : List β) (n : Nat),
      l.foldl (fun count b => count + g b) n ≤ n + l.length
  | [], n => Nat.le_refl n
  | b :: l, n => by
    rw [List.foldl_cons]
    calc l.foldl (fun count b => count + g b) (n + g b)
        ≤ n + g b + l.length := foldl_val_le g hg l (n + g b)
      _ ≤ n + (b :: l).length := by
          have := hg b
          simp [List.length_cons]
          omega

/-! ## The match arms versus the spec rule table -/

/-- The cell written by the source's match equals the spec's rule table. -/
theorem nextCellRecord_fst (c : Cell) (n : Nat) :
    (nextCellRecord c n).1 = lifeRule c n := by
  unfold nextCellRecord lifeRule
  repeat' split
  all_goals rfl

/-- The entry pushed by the source's match: every live cell pushes its next
state, a dead cell pushes `Alive` exactly when it has three live neighbors. -/
theorem nextCellRecord_snd (c : Cell) (n : Nat) :
    (nextCellRecord c n).2 = (if c = Cell.Alive then some (lifeRule c n)
      else if n = 3 then some Cell.Alive else none) := by
  cases c with
  | Alive =>
    unfold nextCellRecord lifeRule
    by_cases h2 : n < 2
    · simp [h2]
    · by_cases h3 : n = 2 ∨ n = 3
      · simp [h2, h3]
      · have h4 : n > 3 := by omega
        simp [h2, h3, h4]
  | Dead =>
    unfold nextCellRecord lifeRule
    by_cases h3 : n = 3 <;> simp [h3]

/-- Each cell contributes at most 1 to a neighbor count. -/
theorem cell_val_le_one (c : Cell) : c.val ≤ 1 := by
  cases c <;> simp [Cell.val]

/-! ## Structure of `update` -/

/-- The inner loop body, spelled with `cellVal`/`pushList`. -/
theorem updateCellStep_eq (u : Universe) (row : Nat)
    (acc : List Cell × List (Nat × Nat × Cell)) (col : Nat) :
    u.updateCellStep row acc col =
      (acc.1.set (u.get_index row col) (u.cellVal row col),
        acc.2 ++ u.pushList row col) := rfl

/-- The outer loop body splits into the buffer fold and the pushed entries of
one row. -/
theorem updateRowStep_eq (u : Universe)
    (acc : List Cell × List (Nat × Nat × Cell)) (row : Nat) :
    u.updateRowStep acc row =
      ((List.range u.width).foldl (fun cs col =>
          cs.set (u.get_index row col) (u.cellVal row col)) acc.1,
        acc.2 ++ (List.range u.width).flatMap (fun col => u.pushList row col)) := by
  unfold Universe.updateRowStep
  exact foldl_pair_split (u.updateCellStep row) _ _
    (updateCellStep_eq u row) (List.range u.width) acc

/-- `update` splits into the double-buffered cell fold and an append of the
pushed entries onto the pre-existing change record. -/
theorem update_eq (u : Universe) :
    u.update = { u with
      cells := u.cellsFold
      changed_cells := u.changed_cells ++ u.updateDelta } := by
  unfold Universe.update
  rw [foldl_pair_split u.updateRowStep
    (fun cs row => (List.range u.width).foldl (fun cs col =>
      cs.set (u.get_index row col) (u.cellVal row col)) cs)
    (fun row => (List.range u.width).flatMap (fun col => u.pushList row col))
    (updateRowStep_eq u) (List.range u.height) (u.cells, u.changed_cells)]
  rfl

/-- `update` preserves `width`. -/
theorem update_width (u : Universe) : u.update.width = u.width := rfl

/-- `update` preserves `height`. -/
theorem update_height (u : Universe) : u.update.height = u.height := rfl

/-- The cell buffer after `update`. -/
theorem update_cells (u : Universe) : u.update.cells = u.cellsFold := by
  rw [update_eq]

/-- The change record after `update`. -/
theorem update_changed (u : Universe) :
    u.update.changed_cells = u.changed_cells ++ u.updateDelta := by
  rw [update_eq]

/-! ## Row-major position bookkeeping -/

/-- Membership in the row-major pair enumeration. -/
theorem mem_pairsRM {height width r c : Nat} :
    (r, c) ∈ pairsRM height width ↔ r < height ∧ c < width := by
  simp [pairsRM, List.mem_flatMap, List.mem_range]

/-- Every enumerated pair is in range. -/
theorem pairsRM_mem_lt {height width : Nat} {p : Nat × Nat}
    (hp : p ∈ pairsRM height width) : p.1 < height ∧ p.2 < width := by
  rcases p with ⟨r, c⟩
  exact mem_pairsRM.mp hp

/-- Row-major linear indices are injective on in-range columns. -/
theorem rowMajor_inj {w r1 c1 r2 c2 : Nat} (hc1 : c1 < w) (hc2 : c2 < w)
    (he : r1 * w + c1 = r2 * w + c2) : r1 = r2 ∧ c1 = c2 := by
  have hw : 0 < w := by omega
  have hr : r1 = r2 := by
    have h1 : (r1 * w + c1) / w = r1 := by
      rw [Nat.mul_comm r1 w, Nat.mul_add_div hw, Nat.div_eq_of_lt hc1]
      omega
    have h2 : (r2 * w + c2) / w = r2 := by
      rw [Nat.mul_comm r2 w, Nat.mul_add_div hw, Nat.div_eq_of_lt hc2]
      omega
    rw [← h1, ← h2, he]
  constructor
  · exact hr
  · subst hr
    omega

/-- A row-major index of an in-range position is below `width * height`. -/
theorem rowMajor_lt {w h r c : Nat} (hr : r < h) (hc : c < w) :
    r * w + c < w * h := by
  calc r * w + c < r * w + w := by omega
    _ = (r + 1) * w := by ring
    _ ≤ h * w := Nat.mul_le_mul_right w hr
    _ = w * h := Nat.mul_comm h w

/-- The nested cell-buffer fold of `update` is the fold over the row-major
pair enumeration. -/
theorem cellsFold_eq_pairs (u : Universe) :
    u.cellsFold = (pairsRM u.height u.width).foldl
      (fun cs p => cs.set (u.get_index p.1 p.2) (u.cellVal p.1 p.2)) u.cells := by
  unfold Universe.cellsFold pairsRM
  rw [foldl_flatMap_eq]
  simp only [List.foldl_map]

/-- After `update`, the buffer holds `cellVal` at every in-range position. -/
theorem cellsFold_getD (u : Universe) (row col : Nat) (hr : row < u.height)
    (hc : col < u.width) (hlen : u.cells.length = u.width * u.height) :
    u.cellsFold.getD (u.get_index row col) Cell.Dead = u.cellVal row col := by
  rw [cellsFold_eq_pairs]
  exact foldl_set_getD_mem (fun p => u.get_index p.1 p.2)
    (fun p => u.cellVal p.1 p.2) (row, col) (pairsRM u.height u.width) u.cells
    (mem_pairsRM.mpr ⟨hr, hc⟩)
    (fun p hp he => by
      rcases pairsRM_mem_lt hp with ⟨h1, h2⟩
      rcases rowMajor_inj h2 hc he with ⟨hrr, hcc⟩
      rcases p with ⟨pr, pc⟩
      simp only at hrr hcc
      rw [hrr, hcc])
    (by rw [hlen]; exact rowMajor_lt hr hc)

/-- `update` preserves the length of the cell buffer. -/
theorem update_cells_length (u : Universe) :
    u.update.cells.length = u.cells.length := by
  rw [update_cells, cellsFold_eq_pairs]
  exact foldl_set_length _ _ _ u.cells

/-! ## Linearization of the row-major double loop -/

/-- A double `flatMap` over rows and columns equals a single `flatMap` over
ascending linear indices decomposed by `/` and `%`. -/
theorem range_mul_flatMap {α : Type} (w : Nat) (g : Nat → Nat → List α) :
    ∀ (h : Nat),
      (List.range (h * w)).flatMap (fun i => g (i / w) (i % w)) =
        (List.range h).flatMap (fun r => (List.range w).flatMap (fun c => g r c))
  | 0 => by simp
  | h + 1 => by
    rw [show (h + 1) * w = h * w + w by ring, List.range_add,
      List.flatMap_append, range_mul_flatMap w g h, List.range_succ,
      List.flatMap_append, List.flatMap_map]
    congr 1
    rw [flatMap_congr_mem _ (fun c => g h c) (List.range w)
      (fun c hc => by
        have hcw : c < w := List.mem_range.mp hc
        have h1 : (h * w + c) / w = h := by
          rw [Nat.mul_comm h w, Nat.mul_add_div (by omega), Nat.div_eq_of_lt hcw]
          omega
        have h2 : (h * w + c) % w = c := by
          rw [Nat.mul_comm h w, Nat.mul_add_mod, Nat.mod_eq_of_lt hcw]
        rw [h1, h2])]
    simp

/-- `flatMap` of optional singletons is `filterMap`. -/
theorem flatMap_toList_eq_filterMap {α β : Type} (f : α → Option β) :
    ∀ (l : List α), l.flatMap (fun a => (f a).toList) = l.filterMap f
  | [] => rfl
  | a :: l => by
    rw [List.flatMap_cons, flatMap_toList_eq_filterMap f l, List.filterMap_cons]
    cases f a <;> simp

/-- The entries `update` pushes, reorganized over linear indices: exactly the
`specDelta` record. -/
theorem updateDelta_eq_specDelta (u : Universe) : u.updateDelta = specDelta u := by
  unfold Universe.updateDelta specDelta
  rw [← range_mul_flatMap u.width (fun row col => u.pushList row col) u.height]
  rw [show (fun i => u.pushList (i / u.width) (i % u.width)) = fun i =>
      ((if u.cells.getD i Cell.Dead = Cell.Alive then
          some (i % u.width, i / u.width,
            lifeRule (u.cells.getD i Cell.Dead)
              (u.live_neighbor_count (i / u.width) (i % u.width)))
        else if u.live_neighbor_count (i / u.width) (i % u.width) = 3 then
          some (i % u.width, i / u.width, Cell.Alive)
        else none).toList) from ?_]
  · exact flatMap_toList_eq_filterMap _ (List.range (u.height * u.width))
  · funext i
    have hidx : u.get_index (i / u.width) (i % u.width) = i := by
      unfold Universe.get_index
      rw [Nat.mul_comm]
      exact Nat.div_add_mod i u.width
    unfold Universe.pushList
    rw [hidx, nextCellRecord_snd]
    by_cases hA : u.cells.getD i Cell.Dead = Cell.Alive
    · rw [if_pos hA, if_pos hA]
      rfl
    · rw [if_neg hA, if_neg hA]
      by_cases h3 : u.live_neighbor_count (i / u.width) (i % u.width) = 3
      · rw [if_pos h3, if_pos h3]
        rfl
      · rw [if_neg h3, if_neg h3]
        rfl

/-! ## Structure of `new` -/

/-- The seeded cell vector, looked up below `width * height`. -/
theorem new_cells_getD (w h i : Nat) (hi : i < w * h) :
    (Universe.new w h).cells.getD i Cell.Dead = Universe.seedCell i := by
  show ((List.range (w * h)).map Universe.seedCell).getD i Cell.Dead = _
  rw [List.getD_eq_getElem?_getD, List.getElem?_map, List.getElem?_range hi]
  rfl

/-- `new` produces `width * height` cells. -/
theorem new_cells_length (w h : Nat) :
    (Universe.new w h).cells.length = w * h := by
  show ((List.range (w * h)).map Universe.seedCell).length = w * h
  rw [List.length_map, List.length_range]

/-- The initial change record equals the spec's row-major list of seeded-alive
cells. -/
theorem new_record_eq (w h : Nat) :
    (Universe.new w h).changed_cells = specInitRecord w h := by
  have hstep : ∀ (record : List (Nat × Nat × Cell)) (row col : Nat),
      (if ((List.range (w * h)).map Universe.seedCell).getD (row * w + col)
          Cell.Dead = Cell.Alive then record ++ [(col, row, Cell.Alive)]
        else record) =
      record ++ (if ((List.range (w * h)).map Universe.seedCell).getD
          (row * w + col) Cell.Dead = Cell.Alive then [(col, row, Cell.Alive)]
        else []) := by
    intro record row col
    split <;> simp
  show List.foldl (fun record row => List.foldl (fun record col =>
      if ((List.range (w * h)).map Universe.seedCell).getD (row * w + col)
        Cell.Dead = Cell.Alive then record ++ [(col, row, Cell.Alive)]
      else record) record (List.range w)) [] (List.range h) = _
  simp only [hstep]
  have hinner : ∀ (record : List (Nat × Nat × Cell)) (row : Nat),
      List.foldl (fun record col => record ++
        (if ((List.range (w * h)).map Universe.seedCell).getD (row * w + col)
            Cell.Dead = Cell.Alive then [(col, row, Cell.Alive)] else []))
        record (List.range w) =
      record ++ (List.range w).flatMap (fun col =>
        if ((List.range (w * h)).map Universe.seedCell).getD (row * w + col)
            Cell.Dead = Cell.Alive then [(col, row, Cell.Alive)] else []) := by
    intro record row
    exact foldl_append_eq _ (List.range w) record
  simp only [hinner]
  rw [foldl_append_eq (fun row => (List.range w).flatMap (fun col =>
    if ((List.range (w * h)).map Universe.seedCell).getD (row * w + col)
        Cell.Dead = Cell.Alive then [(col, row, Cell.Alive)] else []))
    (List.range h) []]
  rw [List.nil_append]
  rw [← range_mul_flatMap w (fun row col =>
    if ((List.range (w * h)).map Universe.seedCell).getD (row * w + col)
        Cell.Dead = Cell.Alive then [(col, row, Cell.Alive)] else []) h]
  unfold specInitRecord
  rw [← flatMap_toList_eq_filterMap]
  apply flatMap_congr_mem
  intro i hi
  have hiw : i < w * h := by
    have h2 := List.mem_range.mp hi
    rwa [Nat.mul_comm h w] at h2
  have hidx : i / w * w + i % w = i := by
    rw [Nat.mul_comm]
    exact Nat.div_add_mod i w
  rw [hidx]
  rw [List.getD_eq_getElem?_getD, List.getElem?_map, List.getElem?_range hiw]
  show (if Universe.seedCell i = Cell.Alive then [(i % w, i / w, Cell.Alive)]
    else []) = _
  split <;> rfl

/-- Every entry of the initial record is in range. -/
theorem mem_specInitRecord {w h : Nat} {t : Nat × Nat × Cell}
    (ht : t ∈ specInitRecord w h) : t.1 < w ∧ t.2.1 < h := by
  unfold specInitRecord at ht
  rcases List.mem_filterMap.mp ht with ⟨i, hi, he⟩
  have hiw : i < h * w := List.mem_range.mp hi
  have hw : 0 < w := by
    rcases Nat.eq_zero_or_pos w with h0 | h0
    · subst h0
      omega
    · exact h0
  split at he
  · rcases Option.some_inj.mp he with rfl
    refine ⟨Nat.mod_lt i hw, ?_⟩
    exact (Nat.div_lt_iff_lt_mul hw).mpr hiw
  · exact absurd he (by simp)

/-- Every entry `update` pushes is in range. -/
theorem mem_updateDelta {u : Universe} {t : Nat × Nat × Cell}
    (ht : t ∈ u.updateDelta) : t.1 < u.width ∧ t.2.1 < u.height := by
  unfold Universe.updateDelta at ht
  rcases List.mem_flatMap.mp ht with ⟨row, hrow, ht2⟩
  rcases List.mem_flatMap.mp ht2 with ⟨col, hcol, ht3⟩
  have hr : row < u.height := List.mem_range.mp hrow
  have hc : col < u.width := List.mem_range.mp hcol
  unfold Universe.pushList at ht3
  simp at ht3
  rcases ht3 with ⟨a, ha, hat⟩
  rw [← hat]
  exact ⟨hc, hr⟩

/-! ## The cell evolution reads only `width`, `height` and `cells` -/

/-- `live_neighbor_count` depends only on dimensions and cells. -/
theorem live_neighbor_count_congr {u1 u2 : Universe}
    (hw : u1.width = u2.width) (hh : u1.height = u2.height)
    (hc : u1.cells = u2.cells) (row col : Nat) :
    u1.live_neighbor_count row col = u2.live_neighbor_count row col := by
  unfold Universe.live_neighbor_count Universe.get_index
  rw [hw, hh, hc]

/-- The written cell buffer depends only on dimensions and cells. -/
theorem cellsFold_congr {u1 u2 : Universe}
    (hw : u1.width = u2.width) (hh : u1.height = u2.height)
    (hc : u1.cells = u2.cells) : u1.cellsFold = u2.cellsFold := by
  unfold Universe.cellsFold Universe.cellVal Universe.get_index
  simp only [live_neighbor_count_congr hw hh hc, hw, hh, hc]

/-- The cells after one `update` depend only on dimensions and cells. -/
theorem update_cells_congr {u1 u2 : Universe}
    (hw : u1.width = u2.width) (hh : u1.height = u2.height)
    (hc : u1.cells = u2.cells) : u1.update.cells = u2.update.cells := by
  rw [update_cells, update_cells]
  exact cellsFold_congr hw hh hc

/-! ## The checked variants always succeed on valid grids -/

/-- In-range reads return `some` of the defaulted lookup. -/
theorem get_some {cs : List Cell} {i : Nat} (hi : i < cs.length) :
    cs.get? i = some (cs.getD i Cell.Dead) := by
  rw [List.get?_eq_getElem?, List.getElem?_eq_getElem hi,
    List.getD_eq_getElem?_getD, List.getElem?_eq_getElem hi]
  rfl

/-- Every neighbor index probed by `live_neighbor_count` is in bounds. -/
theorem neighbor_idx_lt (u : Universe) (row col dr dc : Nat)
    (hh : 1 ≤ u.height) (hw : 1 ≤ u.width)
    (hlen : u.cells.length = u.width * u.height) :
    u.get_index ((row + dr) % u.height) ((col + dc) % u.width) <
      u.cells.length := by
  rw [hlen]
  exact rowMajor_lt (Nat.mod_lt _ (by omega)) (Nat.mod_lt _ (by omega))

/-- The checked neighbor count computes the plain one on a valid grid. -/
theorem live_neighbor_countChk_eq (u : Universe) (row col : Nat)
    (hh : 1 ≤ u.height) (hw : 1 ≤ u.width)
    (hlen : u.cells.length = u.width * u.height) :
    u.live_neighbor_countChk row col = some (u.live_neighbor_count row col) := by
  unfold Universe.live_neighbor_countChk Universe.live_neighbor_count
  refine foldl_option_some (fun _ => True) _ _ [u.height - 1, 0, 1] ?_
    (fun _ _ _ _ => trivial) 0 trivial
  intro n dr _ _
  refine foldl_option_some (fun _ => True) _ _ [u.width - 1, 0, 1] ?_
    (fun _ _ _ _ => trivial) n trivial
  intro m dc _ _
  by_cases hskip : dr = 0 ∧ dc = 0
  · rw [if_pos hskip, if_pos hskip]
  · rw [if_neg hskip, if_neg hskip]
    rw [Option.some_bind, get_some (neighbor_idx_lt u row col dr dc hh hw hlen)]
    rfl

/-- The checked inner loop body computes the plain one at in-range positions
when the buffer has the grid's length. -/
theorem updateCellStepChk_some (u : Universe) (row col : Nat)
    (a : List Cell × List (Nat × Nat × Cell))
    (hr : row < u.height) (hc : col < u.width)
    (hlen : u.cells.length = u.width * u.height)
    (ha : a.1.length = u.cells.length) :
    u.updateCellStepChk row (some a) col = some (u.updateCellStep row a col) := by
  unfold Universe.updateCellStepChk Universe.updateCellStep
  dsimp only
  have hidx : u.get_index row col < u.cells.length := by
    rw [hlen]
    exact rowMajor_lt hr hc
  rw [Option.some_bind, get_some hidx,
    live_neighbor_countChk_eq u row col (by omega) (by omega) hlen]
  rw [Option.some_bind, Option.some_bind]
  unfold setChk
  rw [if_pos (by rw [ha]; exact hidx)]
  rfl

/-- `updateChk` succeeds, returning exactly `update`, on any valid grid. -/
theorem updateChk_eq (u : Universe)
    (hlen : u.cells.length = u.width * u.height) :
    u.updateChk = some u.update := by
  unfold Universe.updateChk Universe.update
  rw [foldl_option_some
    (fun a => a.1.length = u.cells.length)
    u.updateRowStep u.updateRowStepChk (List.range u.height)
    (fun a row hP hrow => by
      unfold Universe.updateRowStepChk Universe.updateRowStep
      exact foldl_option_some (fun a => a.1.length = u.cells.length)
        (u.updateCellStep row) (u.updateCellStepChk row) (List.range u.width)
        (fun b col hQ hcol => updateCellStepChk_some u row col b
          (List.mem_range.mp hrow) (List.mem_range.mp hcol) hlen hQ)
        (fun b col hQ _ => by
          rw [updateCellStep_eq]
          simpa using hQ)
        a hP)
    (fun a row hP _ => by
      rw [updateRowStep_eq]
      have : ∀ (l : List Nat) (cs : List Cell),
          (l.foldl (fun cs col => cs.set (u.get_index row col)
            (u.cellVal row col)) cs).length = cs.length := by
        intro l
        induction l with
        | nil => intro cs; rfl
        | cons x xs ih =>
          intro cs
          rw [List.foldl_cons, ih, List.length_set]
      simpa [this] using hP)
    (u.cells, u.changed_cells) rfl]
  rfl

/-- `newChk` succeeds, returning exactly `new`, for every pair of dimensions:
the record-building pass of the constructor never indexes out of bounds. -/
theorem newChk_eq (w h : Nat) : Universe.newChk w h = some (Universe.new w h) := by
  unfold Universe.newChk Universe.new
  dsimp only
  rw [foldl_option_some (fun _ => True)
    (fun record row => List.foldl (fun record col =>
      let idx := row * w + col
      let cell := ((List.range (w * h)).map Universe.seedCell).getD idx Cell.Dead
      if cell = Cell.Alive then record ++ [(col, row, Cell.Alive)] else record)
      record (List.range w))
    _ (List.range h)
    (fun record row _ hrow => by
      exact foldl_option_some (fun _ => True)
        (fun record col =>
          let idx := row * w + col
          let cell := ((List.range (w * h)).map Universe.seedCell).getD idx
            Cell.Dead
          if cell = Cell.Alive then record ++ [(col, row, Cell.Alive)]
          else record)
        _ (List.range w)
        (fun rec0 col _ hcol => by
          have hidx : row * w + col <
              ((List.range (w * h)).map Universe.seedCell).length := by
            rw [List.length_map, List.length_range]
            exact rowMajor_lt (List.mem_range.mp hrow) (List.mem_range.mp hcol)
          rw [Option.some_bind, get_some hidx]
          rfl)
        (fun _ _ _ _ => trivial) record trivial)
    (fun _ _ _ _ => trivial) [] trivial]
  rfl

/-! ## Toroidal wrapping: `Int` offsets versus the source's `Nat` arithmetic -/

/-- Casting a `Nat` along `Int` modulo and back is plain `Nat` modulo. -/
theorem cast_mod_toNat (a h : Nat) : (((a : Int)) % (h : Int)).toNat = a % h := by
  rw [← Int.natCast_mod, Int.toNat_natCast]

/-- Offset `+1`, wrapped. -/
theorem wrap_add (h r : Nat) : (((r : Int) + 1) % (h : Int)).toNat = (r + 1) % h := by
  have h1 : ((r : Int) + 1) = ((r + 1 : Nat) : Int) := by push_cast; ring
  rw [h1, cast_mod_toNat]

/-- Offset `0`, wrapped. -/
theorem wrap_zero (h r : Nat) : (((r : Int) + 0) % (h : Int)).toNat = (r + 0) % h := by
  have h1 : ((r : Int) + 0) = ((r + 0 : Nat) : Int) := by push_cast; ring
  rw [h1, cast_mod_toNat]

/-- Offset `-1`, wrapped: the spec's `-1 mod h` agrees with the source's
`(r + (h-1)) % h` for in-range `r`. -/
theorem wrap_sub (h r : Nat) (hh : 1 ≤ h) (hr : r < h) :
    (((r : Int) + -1) % (h : Int)).toNat = (r + (h - 1)) % h := by
  rcases Nat.eq_zero_or_pos r with rfl | hp
  · have h1 : ((0 : Int) + -1) % (h : Int) = ((h : Int) - 1) := by
      have h2 : ((0 : Int) + -1) = ((h : Int) - 1) + (h : Int) * (-1) := by ring
      rw [h2, Int.add_mul_emod_self_left]
      exact Int.emod_eq_of_lt (by omega) (by omega)
    rw [Nat.cast_zero, h1]
    have h3 : (0 + (h - 1)) % h = h - 1 := by
      rw [Nat.zero_add]
      exact Nat.mod_eq_of_lt (by omega)
    rw [h3]
    omega
  · have h1 : ((r : Int) + -1) = ((r - 1 : Nat) : Int) := by omega
    rw [h1, cast_mod_toNat]
    have h2 : r + (h - 1) = (r - 1) + h := by omega
    rw [h2, Nat.add_mod_right]

/-- On a grid with both dimensions at least 2, the source's neighbor count is
exactly the spec's 8-offset toroidal count. -/
theorem live_neighbor_count_eq_spec (u : Universe) (row col : Nat)
    (hh : 2 ≤ u.height) (hw : 2 ≤ u.width)
    (hr : row < u.height) (hc : col < u.width) :
    u.live_neighbor_count row col = specNeighborCount u row col := by
  unfold Universe.live_neighbor_count specNeighborCount specOffsets
    Universe.get_index
  simp only [List.foldl_cons, List.foldl_nil]
  simp only [show (u.height - 1 = 0) = False from eq_false (by omega),
    show (u.width - 1 = 0) = False from eq_false (by omega),
    show (((1 : Nat) = 0)) = False from eq_false (by omega),
    show (((0 : Nat) = 0)) = True from eq_true rfl,
    true_and, and_true, false_and, and_false, and_self, if_true, if_false]
  simp only [wrap_sub u.height row (by omega) hr, wrap_sub u.width col (by omega) hc,
    wrap_add u.height row, wrap_add u.width col,
    wrap_zero u.height row, wrap_zero u.width col]

/-- The spec-side count is bounded by 8. -/
theorem specNeighborCount_le (u : Universe) (row col : Nat) :
    specNeighborCount u row col ≤ 8 :=
  foldl_val_le (fun d : Int × Int =>
    (u.cells.getD ((((row : Int) + d.1) % (u.height : Int)).toNat * u.width +
      (((col : Int) + d.2) % (u.width : Int)).toNat) Cell.Dead).val)
    (fun _ => cell_val_le_one _) specOffsets 0

/-! ## Claim theorems -/

/-- C1 (counterexample): after one `step()` on the 4×4 still-life block, no
cell changes state, yet the change record is not empty — so the set of pairs
in the record does not equal the set of changed cells, and the record is not
rebuilt to "only the results of the last step". -/
theorem c1_exactness_counterexample :
    uBlock.update.cells = uBlock.cells ∧ uBlock.update.changed_cells ≠ [] := by
  decide

/-- C1 (amended): after `update`, the change record is the old record with the
row-major `specDelta` entries appended: one `(column, row, new_state)` entry
for every cell that was alive before the step (even when it survives
unchanged) and for every dead cell with exactly three live neighbors; the
record accumulates across steps instead of being rebuilt. -/
theorem c1_change_record_amended (u : Universe) :
    u.update.changed_cells = u.changed_cells ++ specDelta u := by
  rw [update_changed, updateDelta_eq_specDelta]

/-- C2: on any valid grid, `step()` writes at every in-range position exactly
the spec's rule table applied to the cell's previous state and its
live-neighbor count in the previous generation (synchronous update). -/
theorem c2_rule_table (u : Universe) (row col : Nat) (hr : row < u.height)
    (hc : col < u.width) (hlen : u.cells.length = u.width * u.height) :
    u.update.cells.getD (u.get_index row col) Cell.Dead =
      lifeRule (u.cells.getD (u.get_index row col) Cell.Dead)
        (u.live_neighbor_count row col) := by
  rw [update_cells, cellsFold_getD u row col hr hc hlen]
  unfold Universe.cellVal
  rw [nextCellRecord_fst]

/-- C2 witness: the rule-table theorem applied at position (1,1) of the block
fixture. -/
theorem c2_rule_table_witness :
    (1 : Nat) < uBlock.height ∧ (1 : Nat) < uBlock.width ∧
    uBlock.cells.length = uBlock.width * uBlock.height ∧
    uBlock.update.cells.getD (uBlock.get_index 1 1) Cell.Dead =
      lifeRule (uBlock.cells.getD (uBlock.get_index 1 1) Cell.Dead)
        (uBlock.live_neighbor_count 1 1) :=
  ⟨by decide, by decide, by decide,
    c2_rule_table uBlock 1 1 (by decide) (by decide) (by decide)⟩

/-- C3 (counterexample): on a 1×3 all-alive grid the source counts 7, while
the number of alive cells among the 8 toroidal neighbors is 8 — with
`height = 1` the duplicate `0` in the delta list makes the skip condition
drop an extra neighbor pair. -/
theorem c3_wraparound_counterexample :
    uRow3.live_neighbor_count 0 0 = 7 ∧ specNeighborCount uRow3 0 0 = 8 := by
  decide

/-- C3 (amended): for grids with width ≥ 2 and height ≥ 2, at every in-range
position `live_neighbor_count` equals the number of alive cells among the 8
toroidal neighbors (row and column wrapped independently), and lies in
[0, 8]. -/
theorem c3_neighbor_count_amended (u : Universe) (row col : Nat)
    (hh : 2 ≤ u.height) (hw : 2 ≤ u.width)
    (hr : row < u.height) (hc : col < u.width) :
    u.live_neighbor_count row col = specNeighborCount u row col ∧
    u.live_neighbor_count row col ≤ 8 := by
  refine ⟨live_neighbor_count_eq_spec u row col hh hw hr hc, ?_⟩
  rw [live_neighbor_count_eq_spec u row col hh hw hr hc]
  exact specNeighborCount_le u row col

/-- C3 witness: the amended neighbor-count theorem applied at the corner of
the 4×4 block fixture. -/
theorem c3_neighbor_count_witness :
    (2 : Nat) ≤ uBlock.height ∧ (2 : Nat) ≤ uBlock.width ∧
    (uBlock.live_neighbor_count 0 0 = specNeighborCount uBlock 0 0 ∧
      uBlock.live_neighbor_count 0 0 ≤ 8) :=
  ⟨by decide, by decide,
    c3_neighbor_count_amended uBlock 0 0 (by decide) (by decide) (by decide)
      (by decide)⟩

/-- C4 (counterexample): after one `step()` on the 4×4 block still life,
`changed_cells()` is not empty, contrary to the claim. -/
theorem c4_block_counterexample : uBlock.update.changed_cells ≠ [] := by
  decide

/-- C4 (amended): one `step()` on the 4×4 block leaves the same four cells as
the only live cells, and the change record (starting empty) holds exactly the
four surviving block cells as `(column, row, Alive)`, in row-major order. -/
theorem c4_block_amended :
    uBlock.update.cells = uBlock.cells ∧
    uBlock.update.changed_cells =
      [(1, 1, Cell.Alive), (2, 1, Cell.Alive),
        (1, 2, Cell.Alive), (2, 2, Cell.Alive)] := by
  decide

/-- C5 (counterexample): `new(0, 3)` does not fail fast: every access it makes
is in bounds (`newChk` succeeds) and it returns a grid with no cells and an
empty change record. -/
theorem c5_zero_width_counterexample :
    Universe.newChk 0 3 = some (Universe.new 0 3) ∧
    (Universe.new 0 3).cells = [] ∧ (Universe.new 0 3).changed_cells = [] := by
  decide

/-- C5 (amended): construction with `width == 0` or `height == 0` succeeds
rather than rejecting: it returns a grid with `width*height == 0` cells and
an empty change record. -/
theorem c5_zero_dims_amended (w h : Nat) (h0 : w = 0 ∨ h = 0) :
    Universe.newChk w h = some (Universe.new w h) ∧
    (Universe.new w h).cells = [] ∧ (Universe.new w h).changed_cells = [] := by
  refine ⟨newChk_eq w h, ?_, ?_⟩
  · have hl : (Universe.new w h).cells.length = w * h := new_cells_length w h
    have h0l : w * h = 0 := by rcases h0 with rfl | rfl <;> simp
    rw [h0l] at hl
    exact List.length_eq_zero.mp hl
  · rw [new_record_eq]
    unfold specInitRecord
    have h0l : h * w = 0 := by rcases h0 with rfl | rfl <;> simp
    rw [h0l]
    rfl

/-- C5 witness: the amended theorem applied at `new(4, 0)`. -/
theorem c5_zero_dims_witness :
    ((4 : Nat) = 0 ∨ (0 : Nat) = 0) ∧
    (Universe.newChk 4 0 = some (Universe.new 4 0) ∧
      (Universe.new 4 0).cells = [] ∧ (Universe.new 4 0).changed_cells = []) :=
  ⟨Or.inr rfl, c5_zero_dims_amended 4 0 (Or.inr rfl)⟩

/-- C6: `new(width, height)` returns `width*height` cells, the cell at linear
index `i` is alive exactly when `i` is divisible by 2 or by 7, and the initial
change record lists exactly the seeded-alive cells as `(column, row, Alive)`
triples in row-major order. -/
theorem c6_seeding (w h : Nat) (hw : 0 < w) (hh : 0 < h) :
    (Universe.new w h).cells.length = w * h ∧
    (∀ i, i < w * h → (Universe.new w h).cells.getD i Cell.Dead =
      (if i % 2 = 0 ∨ i % 7 = 0 then Cell.Alive else Cell.Dead)) ∧
    (Universe.new w h).changed_cells = specInitRecord w h :=
  ⟨new_cells_length w h, fun i hi => new_cells_getD w h i hi, new_record_eq w h⟩

/-- C6 witness: the seeding theorem applied at `new(2, 3)`, sampled at linear
index 4. -/
theorem c6_seeding_witness :
    (0 : Nat) < 2 ∧ (0 : Nat) < 3 ∧
    (Universe.new 2 3).cells.length = 2 * 3 ∧
    (Universe.new 2 3).cells.getD 4 Cell.Dead =
      (if 4 % 2 = 0 ∨ 4 % 7 = 0 then Cell.Alive else Cell.Dead) ∧
    (Universe.new 2 3).changed_cells = specInitRecord 2 3 :=
  ⟨by decide, by decide, (c6_seeding 2 3 (by decide) (by decide)).1,
    (c6_seeding 2 3 (by decide) (by decide)).2.1 4 (by decide),
    (c6_seeding 2 3 (by decide) (by decide)).2.2⟩

/-- C7: in every state reachable from `new(width, height)` by `step()` and
`clear_changed_cells()` calls, the cell sequence has length
`width * height`. -/
theorem c7_size_invariant (w h : Nat) (u : Universe) (hu : Reachable w h u) :
    u.cells.length = w * h := by
  induction hu with
  | base => exact new_cells_length w h
  | step v hv ih =>
    rw [update_cells_length]
    exact ih
  | clear v hv ih => exact ih

/-- C7 witness: the size invariant after one `step()` from `new(2, 2)`. -/
theorem c7_size_invariant_witness :
    ((Universe.new 2 2).update).cells.length = 2 * 2 :=
  c7_size_invariant 2 2 _ (Reachable.step _ Reachable.base)

/-- C8: `step()` is total on any valid grid: with positive dimensions and
`cells.length = width * height`, every array index computed during `update`
(including those inside `live_neighbor_count`) is in bounds, so the fully
bounds-checked `updateChk` succeeds and returns exactly `update`. -/
theorem c8_update_total (u : Universe) (hw : 1 ≤ u.width) (hh : 1 ≤ u.height)
    (hlen : u.cells.length = u.width * u.height) :
    u.updateChk = some u.update :=
  updateChk_eq u hlen

/-- C8 witness: the totality theorem applied to `new(3, 3)`. -/
theorem c8_update_total_witness :
    (1 : Nat) ≤ (Universe.new 3 3).width ∧
    (1 : Nat) ≤ (Universe.new 3 3).height ∧
    (Universe.new 3 3).cells.length =
      (Universe.new 3 3).width * (Universe.new 3 3).height ∧
    (Universe.new 3 3).updateChk = some (Universe.new 3 3).update :=
  ⟨by decide, by decide, by decide,
    c8_update_total (Universe.new 3 3) (by decide) (by decide) (by decide)⟩

/-- C9: two grids with the same dimensions and the same cells produce
identical cell sequences after any equal number of `step()` calls, regardless
of their change records — no hidden input influences the evolution. -/
theorem c9_determinism (n : Nat) (u1 u2 : Universe) (hw : u1.width = u2.width)
    (hh : u1.height = u2.height) (hc : u1.cells = u2.cells) :
    (stepN n u1).cells = (stepN n u2).cells := by
  induction n generalizing u1 u2 with
  | zero => exact hc
  | succ n ih =>
    exact ih u1.update u2.update
      (by rw [update_width, update_width]; exact hw)
      (by rw [update_height, update_height]; exact hh)
      (update_cells_congr hw hh hc)

/-- C9 witness: the determinism theorem applied to the block fixture and its
dirty-record twin, after two steps. -/
theorem c9_determinism_witness :
    uBlock.width = uBlockDirty.width ∧ uBlock.height = uBlockDirty.height ∧
    uBlock.cells = uBlockDirty.cells ∧
    (stepN 2 uBlock).cells = (stepN 2 uBlockDirty).cells :=
  ⟨by decide, by decide, by decide,
    c9_determinism 2 uBlock uBlockDirty (by decide) (by decide) (by decide)⟩

/-- C10: in every reachable state, every `(column, row, state)` triple in the
change record satisfies `column < width` and `row < height`. -/
theorem c10_record_in_range (w h : Nat) (u : Universe) (hu : Reachable w h u) :
    ∀ t ∈ u.changed_cells, t.1 < u.width ∧ t.2.1 < u.height := by
  induction hu with
  | base =>
    intro t ht
    rw [new_record_eq] at ht
    exact mem_specInitRecord ht
  | step v hv ih =>
    intro t ht
    rw [update_changed] at ht
    rw [update_width, update_height]
    rcases List.mem_append.mp ht with h1 | h2
    · exact ih t h1
    · exact mem_updateDelta h2
  | clear v hv ih =>
    intro t ht
    exact absurd ht (List.not_mem_nil t)

/-- C10 witness: the in-range invariant applied to the initial record of
`new(1, 1)` at its entry `(0, 0, Alive)`. -/
theorem c10_record_in_range_witness :
    (0 : Nat) < (Universe.new 1 1).width ∧
    (0 : Nat) < (Universe.new 1 1).height :=
  c10_record_in_range 1 1 (Universe.new 1 1) Reachable.base
    (0, 0, Cell.Alive) (by decide)
